import Mathlib

/-!
Shallow embedding of the retrace API of this repository
(cmd/restapi/apis/retrace_tx_api.go): the `Retrace` entry point, the
`runBlock` orchestrator, and `ReadChainConfig`, together with
spec-modelled components for repository code that is not part of the
extracted sources (the change-set recorder, the remote reader access
logs, and the external execution/consensus engines, which the code
consumes through narrow interfaces).

Byte sequences are modelled as `List Nat`; machine integers as `Int`
with explicit reduction modulo 2 ^ 64 where the Go code converts to
`uint64`.
-/

namespace Retrace

/-! ## Basic data model -/

/-- Block header: the fields `runBlock` consults (`Number`, `GasLimit`).
Other header fields are consumed opaquely by the external engines. -/
structure Header where
  number : Nat
  gasLimit : Nat
deriving DecidableEq, Repr

/-- Transaction: opaque operation identified by its content hash
(`tx.Hash()` in the Go code), used in error messages. -/
structure Tx where
  hash : List Nat
deriving DecidableEq, Repr

/-- Block: header, ordered transactions, ordered uncle headers. -/
structure Block where
  header : Header
  txs : List Tx
  uncles : List Header
deriving DecidableEq, Repr

/-- Receipt produced by the external execution engine for one
transaction; its contents are opaque to the retrace code. -/
structure Receipt where
  gasUsed : Nat
  status : Nat
deriving DecidableEq, Repr

/-- Chain configuration: the fields the retrace code reads directly
(`DAOForkSupport`, `DAOForkBlock`). The rest of `params.ChainConfig`
is consumed opaquely by the external engines. A `none` fork block
models the nil pointer. -/
structure ChainConfig where
  daoForkSupport : Bool
  daoForkBlock : Option Nat
deriving DecidableEq, Repr

/-- The zero value of `params.ChainConfig`: all fields zero, i.e. the
fork is unsupported and the fork block pointer is nil. -/
def zeroChainConfig : ChainConfig := { daoForkSupport := false, daoForkBlock := none }

/-! ## Change-set recorder (spec-modelled)

Modelled from the spec: `state.NewChangeSetWriter` is repository code
not present in the extracted sources. Per the spec, the recorder
"appends each first-seen key to an ordered log, updating the stored
value on repeated writes to the same key without reordering". -/

/-- One entry of a change set: key and (final) value. -/
structure Change where
  key : List Nat
  value : List Nat
deriving DecidableEq, Repr

/-- Modelled from the spec: insert a write into an ordered,
deduplicated-by-key change-set log. A first-seen key is appended; a
repeated key has its recorded value updated in place, without creating
a duplicate entry or reordering the log. -/
def csPut : List Change → List Nat → List Nat → List Change
  | [], k, v => [⟨k, v⟩]
  | c :: cs, k, v => if c.key = k then ⟨k, v⟩ :: cs else c :: csPut cs k v

/-- Modelled from the spec: the block-scoped change-set recorder
(`state.ChangeSetWriter`), one ordered log per store. -/
structure ChangeSetWriter where
  accountChanges : List Change
  storageChanges : List Change
deriving DecidableEq, Repr

def emptyWriter : ChangeSetWriter := ⟨[], []⟩

/-- A mutation notification sent to a write sink: an account write or a
storage write. -/
inductive WriteOp where
  | account (k v : List Nat)
  | storage (k v : List Nat)
deriving DecidableEq, Repr

/-- Apply one mutation notification to the recorder. -/
def applyOp (w : ChangeSetWriter) : WriteOp → ChangeSetWriter
  | .account k v => { w with accountChanges := csPut w.accountChanges k v }
  | .storage k v => { w with storageChanges := csPut w.storageChanges k v }

/-- Run the recorder over an ordered list of mutation notifications,
starting empty. -/
def runWriter (ops : List WriteOp) : ChangeSetWriter :=
  ops.foldl applyOp emptyWriter

/-- The account-store writes of an operation list, in order. -/
def accountWritesOf (ops : List WriteOp) : List (List Nat × List Nat) :=
  ops.filterMap (fun op => match op with
    | .account k v => some (k, v)
    | .storage _ _ => none)

/-- The storage-store writes of an operation list, in order. -/
def storageWritesOf (ops : List WriteOp) : List (List Nat × List Nat) :=
  ops.filterMap (fun op => match op with
    | .account _ _ => none
    | .storage k v => some (k, v))

/-- Fold a sequence of writes into a change-set log. -/
def foldPut (cs : List Change) (ws : List (List Nat × List Nat)) : List Change :=
  ws.foldl (fun acc kv => csPut acc kv.1 kv.2) cs

/-- The keys of a write sequence in first-write order, without
duplicates. -/
def seenKeys (ws : List (List Nat × List Nat)) : List (List Nat) :=
  ws.foldl (fun acc kv => if kv.1 ∈ acc then acc else acc ++ [kv.1]) []

/-- The value of the last write to key `k` in a write sequence, if any. -/
def lastWrite (ws : List (List Nat × List Nat)) (k : List Nat) : Option (List Nat) :=
  ws.foldl (fun acc kv => if kv.1 = k then some kv.2 else acc) none

/-- Left-biased choice on optional values. -/
def optOr (a b : Option (List Nat)) : Option (List Nat) :=
  match a with
  | some v => some v
  | none => b

/-- Look up the recorded value for key `k` in a change-set log. -/
def lookupCS (cs : List Change) (k : List Nat) : Option (List Nat) :=
  (cs.find? (fun c => decide (c.key = k))).map (fun c => c.value)

/-! ## Go standard-library helpers -/

/-- Decimal digit value of a character, if it is a digit. -/
def digitVal (c : Char) : Option Nat :=
  if 48 ≤ c.toNat ∧ c.toNat ≤ 57 then some (c.toNat - 48) else none

/-- Fold a digit string to its value; `none` if any character is not a
decimal digit. -/
def parseDigits (cs : List Char) : Option Nat :=
  cs.foldl (fun acc c => match acc, digitVal c with
    | some a, some d => some (a * 10 + d)
    | _, _ => none) (some 0)

/-- Modelled from the Go standard library: `strconv.Atoi` on a 64-bit
platform. An optional sign followed by at least one decimal digit,
rejected when empty, malformed, or out of the signed 64-bit range. -/
def atoi (s : String) : Except String Int :=
  match s.data with
  | [] => .error "invalid syntax"
  | c :: cs =>
    let neg : Bool := c = '-'
    let body : List Char := if c = '-' ∨ c = '+' then cs else c :: cs
    match body, parseDigits body with
    | [], _ => .error "invalid syntax"
    | _, none => .error "invalid syntax"
    | _, some n =>
      let v : Int := if neg then -(n : Int) else (n : Int)
      if v < -(2 ^ 63) ∨ (2 ^ 63 - 1) < v then .error "value out of range"
      else .ok v

/-- The Go conversion `uint64(bn)` for an `int` value: reduction modulo
2 ^ 64 (two's-complement wraparound for negative values). -/
def goUint64 (v : Int) : Nat :=
  (v % (2 ^ 64)).toNat

/-- Hexadecimal digit character for a nibble, lowercase. -/
def hexDigitChar (n : Nat) : Char :=
  if n < 10 then Char.ofNat (48 + n) else Char.ofNat (87 + n)

/-- Two lowercase hex digits of one byte. -/
def byteToHex (b : Nat) : List Char :=
  [hexDigitChar (b / 16 % 16), hexDigitChar (b % 16)]

/-- `common.Bytes2Hex`: lowercase hexadecimal encoding of a byte
sequence, no prefix (Go `hex.EncodeToString`). -/
def bytes2Hex (bs : List Nat) : List Char :=
  (bs.map byteToHex).flatten

/-- A character is a lowercase hexadecimal digit: an ASCII decimal
digit (codes 48-57) or one of the lowercase letters a through f
(codes 97-102). In particular neither x nor any uppercase letter
qualifies, so no encoded key can carry a 0x prefix. -/
def isLowerHexDigit (c : Char) : Prop :=
  (48 ≤ c.toNat ∧ c.toNat ≤ 57) ∨ (97 ≤ c.toNat ∧ c.toNat ≤ 102)

instance (c : Char) : Decidable (isLowerHexDigit c) := by
  unfold isLowerHexDigit
  infer_instance

/-! ## Environment: external collaborators

The execution engine, consensus engine, remote reader and backing
store are consumed through narrow interfaces; repository code for them
is not in the extracted sources, so they are modelled from the spec as
an explicit environment of functions. `St` is the opaque threaded
execution state (the intra-block state overlay together with the gas
pool and used-gas counter it evolves with). -/

structure Env (St : Type) where
  /-- Genesis hash constant for mainnet (`params.MainnetGenesisHash`). -/
  mainnetGenesisHash : List Nat
  /-- Genesis hash constant for Ropsten. -/
  ropstenGenesisHash : List Nat
  /-- Genesis hash constant for Rinkeby. -/
  rinkebyGenesisHash : List Nat
  /-- Genesis hash constant for Goerli. -/
  goerliGenesisHash : List Nat
  /-- Read of the config bucket of the backing store; `none` models a
  missing entry. -/
  storeGet : List Nat → Option (List Nat)
  /-- `json.Unmarshal` of stored config data; `none` models a decode
  failure, which leaves the config at its zero value. -/
  decodeConfig : List Nat → Option ChainConfig
  /-- Block locator (`GetBlockByNumber` through the remote store). -/
  getBlockByNumber : Nat → Except String Block
  /-- The fresh execution state over a historical reader bound to the
  given height (`state.New(NewRemoteReader(db, bn))`). -/
  initialState : Nat → St
  /-- The one-time protocol upgrade mutation (`misc.ApplyDAOHardFork`). -/
  applyDAOHardFork : St → St
  /-- External execution engine (`core.ApplyTransaction`). -/
  applyTransaction : ChainConfig → St → Tx → Header → Except String (Receipt × St)
  /-- External consensus engine end-of-block rule
  (`engine.FinalizeAndAssemble`). -/
  finalize : ChainConfig → Header → St → List Tx → List Header → List Receipt → Except String St
  /-- The pending mutations the overlay flushes on `CommitBlock`, in
  notification order, for the EIP-flag context of the given config and
  height; an error models a commit failure. -/
  commitOps : ChainConfig → Nat → St → Except String (List WriteOp)
  /-- Access log of the historical reader for the account store
  (`reader.GetAccountReads()`), read off the final state. -/
  getAccountReads : St → List (List Nat)
  /-- Access log of the historical reader for the storage store
  (`reader.GetStorageReads()`). -/
  getStorageReads : St → List (List Nat)
  /-- The error value `writer.GetAccountChanges()` returns alongside the
  account change set; the call site discards it. -/
  accountChangesErr : ChangeSetWriter → Option String
  /-- The error value `writer.GetStorageChanges()` returns alongside the
  storage change set; the call site discards it. -/
  storageChangesErr : ChangeSetWriter → Option String

variable {St : Type}

/-! ## ReadChainConfig -/

/-- The store key for a chain name: the genesis hash of the four known
chains, `none` (nil key) otherwise. -/
def chainKey (env : Env St) : String → Option (List Nat)
  | "mainnet" => some env.mainnetGenesisHash
  | "testnet" => some env.ropstenGenesisHash
  | "rinkeby" => some env.rinkebyGenesisHash
  | "goerli" => some env.goerliGenesisHash
  | _ => none

/-- `ReadChainConfig`: resolve the consensus settings for a chain name.
A nil key reads no data, a missing entry yields nil data, and a failed
unmarshal leaves the config at its zero value; all three failure modes
are silently ignored, returning the zero-valued config. -/
def ReadChainConfig (env : Env St) (chain : String) : ChainConfig :=
  let data := (chainKey env chain).bind env.storeGet
  match data with
  | none => zeroChainConfig
  | some d => (env.decodeConfig d).getD zeroChainConfig

/-- Config resolution fails: the chain name is unknown, the store
entry is missing, or the stored data does not decode. -/
def configResolutionFails (env : Env St) (chain : String) : Prop :=
  chainKey env chain = none ∨
  (∃ k, chainKey env chain = some k ∧ env.storeGet k = none) ∨
  (∃ k d, chainKey env chain = some k ∧ env.storeGet k = some d ∧ env.decodeConfig d = none)

/-! ## runBlock -/

/-- The phases of one block replay, as attempted in order. -/
inductive Phase where
  | upgrade
  | applyTx (i : Nat)
  | finalize
  | commit
deriving DecidableEq, Repr

/-- The errors `runBlock` can return. -/
inductive RunErr where
  | txFailed (hash : List Nat) (cause : String)
  | finalizeFailed (height : Nat) (cause : String)
  | commitFailed (height : Nat) (cause : String)
deriving DecidableEq, Repr

/-- The formatted error message `runBlock` wraps each failure in. -/
def runErrMsg : RunErr → String
  | .txFailed h c => "tx " ++ String.mk (bytes2Hex h) ++ " failed: " ++ c
  | .finalizeFailed n c => "finalize of block " ++ toString n ++ " failed: " ++ c
  | .commitFailed n c => "commiting block " ++ toString n ++ " failed: " ++ c

/-- The transaction loop of `runBlock`: apply each transaction in
order through the external engine, accumulating receipts; the first
engine rejection aborts with an error naming that transaction's hash.
Returns the attempted phases, the receipts of the successfully applied
prefix, and the final state or the error. `i` is the index of the
first transaction in the list. -/
def applyTxs (env : Env St) (cfg : ChainConfig) (hdr : Header) :
    St → List Tx → Nat → List Phase × List Receipt × Except RunErr St
  | st, [], _ => ([], [], .ok st)
  | st, tx :: rest, i =>
    match env.applyTransaction cfg st tx hdr with
    | .error e => ([Phase.applyTx i], [], .error (.txFailed tx.hash e))
    | .ok (r, st2) =>
      let t := applyTxs env cfg hdr st2 rest (i + 1)
      (Phase.applyTx i :: t.1, r :: t.2.1, t.2.2)

/-- Reference fold: the cumulative state after applying a prefix of
transactions, `none` if any of them is rejected. -/
def stateAfter (env : Env St) (cfg : ChainConfig) (hdr : Header) :
    St → List Tx → Option St
  | st, [] => some st
  | st, tx :: rest =>
    match env.applyTransaction cfg st tx hdr with
    | .error _ => none
    | .ok (_, st2) => stateAfter env cfg hdr st2 rest

/-- The guard of the one-time protocol transition in `runBlock`:
`chainConfig.DAOForkSupport && chainConfig.DAOForkBlock != nil &&
chainConfig.DAOForkBlock.Cmp(block.Number()) == 0`. -/
def daoCond (cfg : ChainConfig) (hdr : Header) : Bool :=
  cfg.daoForkSupport && decide (cfg.daoForkBlock = some hdr.number)

/-- The body of `runBlock` after the optional one-time transition:
transaction loop, then finalization, then the single commit flushing
the overlay's pending mutations through the block writer. -/
def runBlockBody (env : Env St) (cfg : ChainConfig) (blockWriter : ChangeSetWriter)
    (block : Block) (st0 : St) : List Phase × Except RunErr (ChangeSetWriter × St) :=
  match (applyTxs env cfg block.header st0 block.txs 0).2.2 with
  | .error e => ((applyTxs env cfg block.header st0 block.txs 0).1, .error e)
  | .ok st1 =>
    match env.finalize cfg block.header st1 block.txs block.uncles
        (applyTxs env cfg block.header st0 block.txs 0).2.1 with
    | .error e => ((applyTxs env cfg block.header st0 block.txs 0).1 ++ [Phase.finalize],
        .error (.finalizeFailed block.header.number e))
    | .ok st2 =>
      match env.commitOps cfg block.header.number st2 with
      | .error e => ((applyTxs env cfg block.header st0 block.txs 0).1 ++
          [Phase.finalize, Phase.commit], .error (.commitFailed block.header.number e))
      | .ok ops =>
        ((applyTxs env cfg block.header st0 block.txs 0).1 ++ [Phase.finalize, Phase.commit],
          .ok (ops.foldl applyOp blockWriter, st2))

/-- The trace contribution of the optional one-time transition. -/
def upgradeTrace (cfg : ChainConfig) (hdr : Header) : List Phase :=
  if daoCond cfg hdr then [Phase.upgrade] else []

/-- `runBlock`: optional one-time protocol transition when the block's
height matches the configured fork height, then the block body.
Returns the trace of attempted phases alongside the result. -/
def runBlock (env : Env St) (cfg : ChainConfig) (blockWriter : ChangeSetWriter)
    (block : Block) (st : St) : List Phase × Except RunErr (ChangeSetWriter × St) :=
  let st0 := if daoCond cfg block.header then env.applyDAOHardFork st else st
  let r := runBlockBody env cfg blockWriter block st0
  (upgradeTrace cfg block.header ++ r.1, r.2)

/-! ## Retrace -/

/-- One store's reads and writes, as hex strings (`WritesReads`). -/
structure WritesReads where
  Reads : List String
  Writes : List String
deriving DecidableEq, Repr

/-- The response value (`RetraceResponse`). -/
structure RetraceResponse where
  Storage : WritesReads
  Account : WritesReads
deriving DecidableEq, Repr

/-- The zero value `RetraceResponse{}` returned on every error path. -/
def emptyResponse : RetraceResponse := ⟨⟨[], []⟩, ⟨[], []⟩⟩

/-- The tail of `Retrace` after the block is located: run the block on
a fresh writer and a fresh state bound to the height, then assemble
the response from the recorded change sets and read logs. The `err`
re-check after `GetAccountChanges` in the source tests the variable
left nil by the earlier `runBlock` check, so its branch is dead; the
errors returned by the change-set accessors are bound and discarded
exactly as at the call sites. -/
def retraceRun (env : Env St) (cfg : ChainConfig) (bnU : Nat) (block : Block) :
    RetraceResponse × Option String :=
  match runBlock env cfg emptyWriter block (env.initialState bnU) with
  | (_, .error e) => (emptyResponse, some (runErrMsg e))
  | (_, .ok (w, stF)) =>
    let _aerr := env.accountChangesErr w
    let staleErr : Option String := none
    match staleErr with
    | some e => (emptyResponse, some e)
    | none =>
      let accountWrites := w.accountChanges.map (fun ch => String.mk (bytes2Hex ch.key))
      let accountReads := (env.getAccountReads stF).map (fun k => String.mk (bytes2Hex k))
      let _serr := env.storageChangesErr w
      let storageWrites := w.storageChanges.map (fun ch => String.mk (bytes2Hex ch.key))
      let storageReads := (env.getStorageReads stF).map (fun k => String.mk (bytes2Hex k))
      (⟨⟨storageReads, storageWrites⟩, ⟨accountReads, accountWrites⟩⟩, none)

/-- `Retrace` with the chain config already resolved: parse the height
with `strconv.Atoi`, convert it with `uint64(bn)`, locate the block,
and run the replay. -/
def retraceWithCfg (env : Env St) (cfg : ChainConfig) (blockNumber : String) :
    RetraceResponse × Option String :=
  match atoi blockNumber with
  | .error e => (emptyResponse, some e)
  | .ok bn =>
    match env.getBlockByNumber (goUint64 bn) with
    | .error e => (emptyResponse, some e)
    | .ok block => retraceRun env cfg (goUint64 bn) block

/-- `Retrace`: resolve the chain config, then parse, locate and replay.
Returns the Go-style pair of response and error. -/
def Retrace (env : Env St) (blockNumber chain : String) :
    RetraceResponse × Option String :=
  retraceWithCfg env (ReadChainConfig env chain) blockNumber

/-! ## Concrete environments used to evaluate the definitions -/

/-- A minimal concrete environment: every chain lookup misses, every
located block is empty, the engine rejects everything, finalization
and commit succeed with no pending mutations. -/
def sampleEnv : Env Unit where
  mainnetGenesisHash := [0]
  ropstenGenesisHash := [1]
  rinkebyGenesisHash := [2]
  goerliGenesisHash := [3]
  storeGet := fun _ => none
  decodeConfig := fun _ => none
  getBlockByNumber := fun n => .ok ⟨⟨n, 1000⟩, [], []⟩
  initialState := fun _ => ()
  applyDAOHardFork := fun s => s
  applyTransaction := fun _ _ _ _ => .error "engine rejected"
  finalize := fun _ _ s _ _ _ => .ok s
  commitOps := fun _ _ _ => .ok []
  getAccountReads := fun _ => []
  getStorageReads := fun _ => []
  accountChangesErr := fun _ => none
  storageChangesErr := fun _ => none

/-- An environment whose engine accepts exactly the transaction with
hash `[1]`, for exercising the first-failure behaviour. -/
def engineEnv : Env Nat where
  mainnetGenesisHash := [0]
  ropstenGenesisHash := [1]
  rinkebyGenesisHash := [2]
  goerliGenesisHash := [3]
  storeGet := fun _ => none
  decodeConfig := fun _ => none
  getBlockByNumber := fun n => .ok ⟨⟨n, 1000⟩, [], []⟩
  initialState := fun _ => 0
  applyDAOHardFork := fun s => s + 100
  applyTransaction := fun _ st tx _ =>
    if tx.hash = [1] then .ok (⟨21000, 1⟩, st + 1) else .error "bad tx"
  finalize := fun _ _ s _ _ _ => .ok s
  commitOps := fun _ _ _ => .ok []
  getAccountReads := fun _ => []
  getStorageReads := fun _ => []
  accountChangesErr := fun _ => none
  storageChangesErr := fun _ => none

/-- An environment whose commit flushes a repeated account write and a
storage write, whose reader logged some reads, and whose change-set
accessors report errors, for exercising the response assembly. -/
def writerEnv : Env Unit where
  mainnetGenesisHash := [0]
  ropstenGenesisHash := [1]
  rinkebyGenesisHash := [2]
  goerliGenesisHash := [3]
  storeGet := fun _ => none
  decodeConfig := fun _ => none
  getBlockByNumber := fun n => .ok ⟨⟨n, 1000⟩, [], []⟩
  initialState := fun _ => ()
  applyDAOHardFork := fun s => s
  applyTransaction := fun _ _ _ _ => .error "engine rejected"
  finalize := fun _ _ s _ _ _ => .ok s
  commitOps := fun _ _ _ =>
    .ok [.account [171] [1], .account [171] [2], .storage [205, 15] [3]]
  getAccountReads := fun _ => [[18, 52]]
  getStorageReads := fun _ => [[254]]
  accountChangesErr := fun _ => some "account changeset error"
  storageChangesErr := fun _ => some "storage changeset error"

/-- A block with three transactions whose second one `engineEnv`
rejects. -/
def threeTxBlock : Block :=
  ⟨⟨7, 1000⟩, [⟨[1]⟩, ⟨[2]⟩, ⟨[3]⟩], []⟩

/-- The empty block at height 7, as `writerEnv` locates it. -/
def blockAt7 : Block := ⟨⟨7, 1000⟩, [], []⟩

/-- The recorder contents after replaying `blockAt7` in `writerEnv`:
the repeated account write was collapsed to its final value. -/
def writerLog : ChangeSetWriter := ⟨[⟨[171], [2]⟩], [⟨[205, 15], [3]⟩]⟩

/-! # Theorems -/

/-! ## Change-set recorder lemmas -/

theorem csPut_keys (cs : List Change) (k v : List Nat) :
    (csPut cs k v).map Change.key =
      if k ∈ cs.map Change.key then cs.map Change.key else cs.map Change.key ++ [k] := by
  induction cs with
  | nil => simp [csPut]
  | cons c cs ih =>
    by_cases hc : c.key = k
    · simp [csPut, hc]
    · have hck : ¬ (k = c.key) := fun hh => hc hh.symm
      by_cases hk : k ∈ cs.map Change.key <;>
        simp [csPut, hc, ih, hk, List.mem_cons, hck]

theorem lookupCS_cons (c : Change) (cs : List Change) (k : List Nat) :
    lookupCS (c :: cs) k = if c.key = k then some c.value else lookupCS cs k := by
  by_cases h : c.key = k <;> simp [lookupCS, List.find?_cons, h]

theorem lookupCS_csPut (cs : List Change) (k v k' : List Nat) :
    lookupCS (csPut cs k v) k' = if k' = k then some v else lookupCS cs k' := by
  induction cs with
  | nil =>
    by_cases h : k' = k
    · subst h; simp [csPut, lookupCS, List.find?_cons]
    · have h1 : ¬ (k = k') := fun hh => h hh.symm
      simp [csPut, lookupCS, List.find?_cons, h, h1]
  | cons c cs ih =>
    by_cases hc : c.key = k
    · by_cases h : k' = k
      · subst h; simp [csPut, hc, lookupCS_cons]
      · have h1 : ¬ (k = k') := fun hh => h hh.symm
        have h2 : ¬ (c.key = k') := by rw [hc]; exact h1
        simp [csPut, hc, lookupCS_cons, h, h1, h2]
    · by_cases h : c.key = k'
      · have hk : ¬ (k' = k) := fun hh => hc (h.trans hh)
        simp [csPut, hc, lookupCS_cons, h, hk]
      · simp [csPut, hc, lookupCS_cons, h, ih]

theorem foldPut_keys (ws : List (List Nat × List Nat)) :
    ∀ cs : List Change,
      (foldPut cs ws).map Change.key =
        ws.foldl (fun acc kv => if kv.1 ∈ acc then acc else acc ++ [kv.1])
          (cs.map Change.key) := by
  induction ws with
  | nil => intro cs; rfl
  | cons kv ws ih =>
    intro cs
    show (foldPut (csPut cs kv.1 kv.2) ws).map Change.key = _
    rw [ih, csPut_keys]
    simp only [List.foldl_cons]

theorem seenFold_nodup (ws : List (List Nat × List Nat)) :
    ∀ acc : List (List Nat), acc.Nodup →
      (ws.foldl (fun acc kv => if kv.1 ∈ acc then acc else acc ++ [kv.1]) acc).Nodup := by
  induction ws with
  | nil => intro acc h; exact h
  | cons kv ws ih =>
    intro acc h
    simp only [List.foldl_cons]
    by_cases hm : kv.1 ∈ acc
    · simpa [hm] using ih acc h
    · have hins : (acc ++ [kv.1]).Nodup := by
        simp [List.nodup_append, h, List.disjoint_singleton, hm]
      simpa [hm] using ih _ hins

theorem lastWrite_foldl (k : List Nat) (ws : List (List Nat × List Nat)) :
    ∀ init : Option (List Nat),
      ws.foldl (fun acc kv => if kv.1 = k then some kv.2 else acc) init =
        optOr (lastWrite ws k) init := by
  induction ws with
  | nil => intro init; rfl
  | cons kv ws ih =>
    intro init
    show ws.foldl _ (if kv.1 = k then some kv.2 else init) = optOr (lastWrite (kv :: ws) k) init
    have hcons : lastWrite (kv :: ws) k =
        ws.foldl (fun acc kv => if kv.1 = k then some kv.2 else acc)
          (if kv.1 = k then some kv.2 else none) := rfl
    rw [ih, hcons, ih]
    by_cases hk : kv.1 = k <;> cases hlw : lastWrite ws k <;> simp [optOr, hk]

theorem lookupCS_foldPut (ws : List (List Nat × List Nat)) :
    ∀ (cs : List Change) (k : List Nat),
      lookupCS (foldPut cs ws) k = optOr (lastWrite ws k) (lookupCS cs k) := by
  induction ws with
  | nil => intro cs k; rfl
  | cons kv ws ih =>
    intro cs k
    show lookupCS (foldPut (csPut cs kv.1 kv.2) ws) k = _
    rw [ih, lookupCS_csPut]
    have hcons : lastWrite (kv :: ws) k =
        optOr (lastWrite ws k) (if kv.1 = k then some kv.2 else none) := by
      have : lastWrite (kv :: ws) k =
          ws.foldl (fun acc kv => if kv.1 = k then some kv.2 else acc)
            (if kv.1 = k then some kv.2 else none) := rfl
      rw [this, lastWrite_foldl]
    rw [hcons]
    cases hlw : lastWrite ws k with
    | some v => simp [optOr]
    | none =>
      by_cases hk : kv.1 = k
      · subst hk; simp [optOr]
      · have hk2 : ¬ (k = kv.1) := fun hh => hk hh.symm
        simp [optOr, hk, hk2]

theorem lookupCS_foldPut_nil (ws : List (List Nat × List Nat)) (k : List Nat) :
    lookupCS (foldPut [] ws) k = lastWrite ws k := by
  rw [lookupCS_foldPut]
  cases hlw : lastWrite ws k <;> simp [optOr, lookupCS]

theorem foldl_applyOp (ops : List WriteOp) :
    ∀ w : ChangeSetWriter,
      ops.foldl applyOp w =
        ⟨foldPut w.accountChanges (accountWritesOf ops),
         foldPut w.storageChanges (storageWritesOf ops)⟩ := by
  induction ops with
  | nil => intro w; rfl
  | cons op ops ih =>
    intro w
    cases op with
    | account k v =>
      simp only [List.foldl_cons, ih, applyOp, accountWritesOf, storageWritesOf,
        List.filterMap_cons]
      rfl
    | storage k v =>
      simp only [List.foldl_cons, ih, applyOp, accountWritesOf, storageWritesOf,
        List.filterMap_cons]
      rfl

theorem runWriter_eq (ops : List WriteOp) :
    runWriter ops =
      ⟨foldPut [] (accountWritesOf ops), foldPut [] (storageWritesOf ops)⟩ :=
  foldl_applyOp ops emptyWriter

/-! ## Transaction loop lemmas -/

theorem range_one_succ (i n : Nat) : List.range' i (n + 1) = i :: List.range' (i + 1) n := rfl

theorem applyTxs_ok_parts (env : Env St) (cfg : ChainConfig) (hdr : Header) (txs : List Tx) :
    ∀ st i st1, (applyTxs env cfg hdr st txs i).2.2 = .ok st1 →
      (applyTxs env cfg hdr st txs i).2.1.length = txs.length ∧
      (applyTxs env cfg hdr st txs i).1 = (List.range' i txs.length).map Phase.applyTx ∧
      ∀ k txk, txs[k]? = some txk →
        ∃ stk r st2, stateAfter env cfg hdr st (txs.take k) = some stk ∧
          env.applyTransaction cfg stk txk hdr = .ok (r, st2) ∧
          (applyTxs env cfg hdr st txs i).2.1[k]? = some r := by
  induction txs with
  | nil =>
    intro st i st1 h
    refine ⟨rfl, rfl, ?_⟩
    intro k txk hk
    simp at hk
  | cons tx rest ih =>
    intro st i st1 h
    cases happ : env.applyTransaction cfg st tx hdr with
    | error e => simp [applyTxs, happ] at h
    | ok p =>
      obtain ⟨r, st2⟩ := p
      have hunfold : applyTxs env cfg hdr st (tx :: rest) i =
          (Phase.applyTx i :: (applyTxs env cfg hdr st2 rest (i + 1)).1,
           r :: (applyTxs env cfg hdr st2 rest (i + 1)).2.1,
           (applyTxs env cfg hdr st2 rest (i + 1)).2.2) := by
        simp [applyTxs, happ]
      rw [hunfold] at h
      simp only at h
      obtain ⟨hlen, htr, hget⟩ := ih st2 (i + 1) st1 h
      refine ⟨?_, ?_, ?_⟩
      · rw [hunfold]; simp [hlen]
      · rw [hunfold]; simp [htr, List.length_cons, range_one_succ]
      · intro k txk hk
        cases k with
        | zero =>
          simp only [List.getElem?_cons_zero, Option.some.injEq] at hk
          subst hk
          exact ⟨st, r, st2, rfl, happ, by rw [hunfold]; simp⟩
        | succ k =>
          simp only [List.getElem?_cons_succ] at hk
          obtain ⟨stk, r2, st3, hsa, happ2, hget2⟩ := hget k txk hk
          refine ⟨stk, r2, st3, ?_, happ2, ?_⟩
          · simp [stateAfter, happ, hsa]
          · rw [hunfold]; simpa using hget2

theorem applyTxs_fail (env : Env St) (cfg : ChainConfig) (hdr : Header) (txs : List Tx) :
    ∀ st i j stj txj e,
      stateAfter env cfg hdr st (txs.take j) = some stj →
      txs[j]? = some txj →
      env.applyTransaction cfg stj txj hdr = .error e →
      (applyTxs env cfg hdr st txs i).1 = (List.range' i (j + 1)).map Phase.applyTx ∧
      (applyTxs env cfg hdr st txs i).2.1.length = j ∧
      (applyTxs env cfg hdr st txs i).2.2 = .error (.txFailed txj.hash e) := by
  induction txs with
  | nil => intro st i j stj txj e hsa hj happ; simp at hj
  | cons tx rest ih =>
    intro st i j stj txj e hsa hj happ
    cases j with
    | zero =>
      simp only [List.getElem?_cons_zero, Option.some.injEq] at hj
      subst hj
      simp only [List.take_zero, stateAfter, Option.some.injEq] at hsa
      subst hsa
      simp [applyTxs, happ, List.range']
    | succ j =>
      simp only [List.getElem?_cons_succ] at hj
      rw [List.take_succ_cons] at hsa
      cases happ0 : env.applyTransaction cfg st tx hdr with
      | error e0 => rw [stateAfter, happ0] at hsa; cases hsa
      | ok p =>
        obtain ⟨r, st2⟩ := p
        rw [stateAfter, happ0] at hsa
        obtain ⟨h1, h2, h3⟩ := ih st2 (i + 1) j stj txj e hsa hj happ
        have hunfold : applyTxs env cfg hdr st (tx :: rest) i =
            (Phase.applyTx i :: (applyTxs env cfg hdr st2 rest (i + 1)).1,
             r :: (applyTxs env cfg hdr st2 rest (i + 1)).2.1,
             (applyTxs env cfg hdr st2 rest (i + 1)).2.2) := by
          simp [applyTxs, happ0]
        rw [hunfold]
        exact ⟨by simp [h1, range_one_succ], by simp [h2], h3⟩

theorem applyTxs_phases_shape (env : Env St) (cfg : ChainConfig) (hdr : Header) (txs : List Tx) :
    ∀ st i, ∃ m, m ≤ txs.length ∧
      (applyTxs env cfg hdr st txs i).1 = (List.range' i m).map Phase.applyTx := by
  induction txs with
  | nil => intro st i; exact ⟨0, Nat.le_refl 0, rfl⟩
  | cons tx rest ih =>
    intro st i
    cases happ : env.applyTransaction cfg st tx hdr with
    | error e =>
      refine ⟨1, by simp, ?_⟩
      simp [applyTxs, happ, List.range']
    | ok p =>
      obtain ⟨r, st2⟩ := p
      obtain ⟨m, hm, htr⟩ := ih st2 (i + 1)
      refine ⟨m + 1, by simpa using Nat.succ_le_succ hm, ?_⟩
      simp [applyTxs, happ, htr, range_one_succ]

/-! ## runBlock lemmas -/

theorem runBlock_eq (env : Env St) (cfg : ChainConfig) (bw : ChangeSetWriter)
    (block : Block) (st : St) :
    runBlock env cfg bw block st =
      (upgradeTrace cfg block.header ++
        (runBlockBody env cfg bw block
          (if daoCond cfg block.header then env.applyDAOHardFork st else st)).1,
       (runBlockBody env cfg bw block
          (if daoCond cfg block.header then env.applyDAOHardFork st else st)).2) := rfl

theorem runBlockBody_ok_inv (env : Env St) (cfg : ChainConfig) (bw : ChangeSetWriter)
    (block : Block) (st0 : St) (tr : List Phase) (w : ChangeSetWriter) (stF : St)
    (h : runBlockBody env cfg bw block st0 = (tr, .ok (w, stF))) :
    ∃ st1 st2 ops,
      (applyTxs env cfg block.header st0 block.txs 0).2.2 = .ok st1 ∧
      env.finalize cfg block.header st1 block.txs block.uncles
        (applyTxs env cfg block.header st0 block.txs 0).2.1 = .ok st2 ∧
      env.commitOps cfg block.header.number st2 = .ok ops ∧
      w = ops.foldl applyOp bw ∧ stF = st2 ∧
      tr = (applyTxs env cfg block.header st0 block.txs 0).1 ++
        [Phase.finalize, Phase.commit] := by
  unfold runBlockBody at h
  split at h
  · simp at h
  case _ st1 hst1 =>
    split at h
    · simp at h
    case _ st2 hst2 =>
      split at h
      · simp at h
      case _ ops hops =>
        simp only [Prod.mk.injEq, Except.ok.injEq] at h
        exact ⟨st1, st2, ops, hst1, hst2, hops, h.2.1.symm, h.2.2.symm, h.1.symm⟩

theorem runBlockBody_trace (env : Env St) (cfg : ChainConfig) (bw : ChangeSetWriter)
    (block : Block) (st0 : St) :
    ∃ tail,
      (runBlockBody env cfg bw block st0).1 =
        (applyTxs env cfg block.header st0 block.txs 0).1 ++ tail ∧
      (tail = [] ∨ tail = [Phase.finalize] ∨ tail = [Phase.finalize, Phase.commit]) ∧
      (∀ r, (runBlockBody env cfg bw block st0).2 = .ok r →
        tail = [Phase.finalize, Phase.commit]) ∧
      ((applyTxs env cfg block.header st0 block.txs 0).2.2.isOk = true → tail ≠ []) := by
  unfold runBlockBody
  split
  case _ e he =>
    exact ⟨[], by simp, Or.inl rfl, by simp, by simp [he, Except.isOk, Except.toBool]⟩
  case _ st1 hst1 =>
    split
    case _ e he =>
      exact ⟨[Phase.finalize], by simp, Or.inr (Or.inl rfl), by simp, by simp⟩
    case _ st2 hst2 =>
      split
      case _ e he =>
        exact ⟨[Phase.finalize, Phase.commit], by simp, Or.inr (Or.inr rfl), by simp, by simp⟩
      case _ ops hops =>
        exact ⟨[Phase.finalize, Phase.commit], by simp, Or.inr (Or.inr rfl), by simp, by simp⟩

theorem mem_upgradeTrace (cfg : ChainConfig) (hdr : Header) :
    Phase.upgrade ∈ upgradeTrace cfg hdr ↔ daoCond cfg hdr = true := by
  unfold upgradeTrace
  split <;> simp_all

theorem commit_notin_upgradeTrace (cfg : ChainConfig) (hdr : Header) :
    Phase.commit ∉ upgradeTrace cfg hdr := by
  unfold upgradeTrace
  split <;> simp

theorem finalize_notin_upgradeTrace (cfg : ChainConfig) (hdr : Header) :
    Phase.finalize ∉ upgradeTrace cfg hdr := by
  unfold upgradeTrace
  split <;> simp

theorem commit_notin_applyMap (i m : Nat) :
    Phase.commit ∉ (List.range' i m).map Phase.applyTx := by
  simp [List.mem_map]

theorem finalize_notin_applyMap (i m : Nat) :
    Phase.finalize ∉ (List.range' i m).map Phase.applyTx := by
  simp [List.mem_map]

theorem upgrade_notin_applyMap (i m : Nat) :
    Phase.upgrade ∉ (List.range' i m).map Phase.applyTx := by
  simp [List.mem_map]

/-- C9: in every replay the phases run in the fixed order: optional
one-time protocol transition, then each transaction in block order,
then finalization, then exactly one commit; commit happens at most
once, only immediately after finalization, a successful replay runs
the full sequence, and a block with zero transactions still reaches
finalization (and, when the replay succeeds, commit). -/
theorem runBlock_phase_order (env : Env St) (cfg : ChainConfig) (bw : ChangeSetWriter)
    (block : Block) (st : St) :
    ((runBlock env cfg bw block st).1.count Phase.commit ≤ 1) ∧
    (Phase.commit ∈ (runBlock env cfg bw block st).1 →
      ∃ pre, (runBlock env cfg bw block st).1 = pre ++ [Phase.finalize, Phase.commit] ∧
        Phase.commit ∉ pre ∧ Phase.finalize ∉ pre) ∧
    (∀ w stF, (runBlock env cfg bw block st).2 = .ok (w, stF) →
      (runBlock env cfg bw block st).1 =
        upgradeTrace cfg block.header ++
          (List.range' 0 block.txs.length).map Phase.applyTx ++
          [Phase.finalize, Phase.commit]) ∧
    (block.txs = [] → Phase.finalize ∈ (runBlock env cfg bw block st).1) := by
  obtain ⟨tail, htail, hcases, hok, hne⟩ :=
    runBlockBody_trace env cfg bw block
      (if daoCond cfg block.header then env.applyDAOHardFork st else st)
  obtain ⟨m, hm, htr⟩ :=
    applyTxs_phases_shape env cfg block.header block.txs
      (if daoCond cfg block.header then env.applyDAOHardFork st else st) 0
  have hTR : (runBlock env cfg bw block st).1 =
      upgradeTrace cfg block.header ++
        ((List.range' 0 m).map Phase.applyTx ++ tail) := by
    rw [runBlock_eq]
    simp only []
    rw [htail, htr]
  have hres : (runBlock env cfg bw block st).2 =
      (runBlockBody env cfg bw block
        (if daoCond cfg block.header then env.applyDAOHardFork st else st)).2 := rfl
  have htail_count : tail.count Phase.commit ≤ 1 := by
    rcases hcases with h | h | h <;> subst h <;> decide
  refine ⟨?_, ?_, ?_, ?_⟩
  · rw [hTR]
    rw [List.count_append, List.count_append]
    have h1 : (upgradeTrace cfg block.header).count Phase.commit = 0 :=
      List.count_eq_zero.mpr (commit_notin_upgradeTrace cfg block.header)
    have h2 : ((List.range' 0 m).map Phase.applyTx).count Phase.commit = 0 :=
      List.count_eq_zero.mpr (commit_notin_applyMap 0 m)
    omega
  · intro hmem
    rw [hTR] at hmem
    have hmt : Phase.commit ∈ tail := by
      rcases List.mem_append.mp hmem with h | h
      · exact absurd h (commit_notin_upgradeTrace cfg block.header)
      · rcases List.mem_append.mp h with h | h
        · exact absurd h (commit_notin_applyMap 0 m)
        · exact h
    have htl : tail = [Phase.finalize, Phase.commit] := by
      rcases hcases with h | h | h <;> subst h <;> simp_all
    refine ⟨upgradeTrace cfg block.header ++ (List.range' 0 m).map Phase.applyTx, ?_, ?_, ?_⟩
    · rw [hTR, htl, List.append_assoc]
    · intro h
      rcases List.mem_append.mp h with h | h
      · exact absurd h (commit_notin_upgradeTrace cfg block.header)
      · exact absurd h (commit_notin_applyMap 0 m)
    · intro h
      rcases List.mem_append.mp h with h | h
      · exact absurd h (finalize_notin_upgradeTrace cfg block.header)
      · exact absurd h (finalize_notin_applyMap 0 m)
  · intro w stF hr
    rw [hres] at hr
    have htl : tail = [Phase.finalize, Phase.commit] := hok _ hr
    obtain ⟨st1, st2, ops, hst1, _, _, _, _, htr2⟩ :=
      runBlockBody_ok_inv env cfg bw block _ _ w stF (Prod.ext_iff.mpr ⟨rfl, hr⟩)
    obtain ⟨_, htr3, _⟩ := applyTxs_ok_parts env cfg block.header block.txs _ 0 st1 hst1
    have hmap : (List.range' 0 m).map Phase.applyTx =
        (List.range' 0 block.txs.length).map Phase.applyTx := by
      rw [← htr, htr3]
    rw [hTR, htl, hmap, List.append_assoc]
  · intro htx
    have hisok : (applyTxs env cfg block.header
        (if daoCond cfg block.header then env.applyDAOHardFork st else st)
        block.txs 0).2.2.isOk = true := by
      rw [htx]
      rfl
    have hne2 := hne hisok
    have hfin : Phase.finalize ∈ tail := by
      rcases hcases with h | h | h
      · exact absurd h hne2
      · subst h; simp
      · subst h; simp
    rw [hTR]
    exact List.mem_append.mpr (Or.inr (List.mem_append.mpr (Or.inr hfin)))

/-- C5: the one-time protocol transition's deterministic state
mutation is applied, before any transaction executes, exactly when the
block's height matches the configured one-time protocol-upgrade
height (fork supported and fork block equal to the block number); at
every other height it is skipped. -/
theorem runBlock_one_time_upgrade (env : Env St) (cfg : ChainConfig) (bw : ChangeSetWriter)
    (block : Block) (st : St) :
    (Phase.upgrade ∈ (runBlock env cfg bw block st).1 ↔
      cfg.daoForkSupport = true ∧ cfg.daoForkBlock = some block.header.number) ∧
    (∃ rest, (runBlock env cfg bw block st).1 = upgradeTrace cfg block.header ++ rest ∧
      Phase.upgrade ∉ rest) ∧
    ((runBlock env cfg bw block st).2 =
      (runBlockBody env cfg bw block
        (if daoCond cfg block.header then env.applyDAOHardFork st else st)).2) := by
  obtain ⟨tail, htail, hcases, hok, hne⟩ :=
    runBlockBody_trace env cfg bw block
      (if daoCond cfg block.header then env.applyDAOHardFork st else st)
  obtain ⟨m, hm, htr⟩ :=
    applyTxs_phases_shape env cfg block.header block.txs
      (if daoCond cfg block.header then env.applyDAOHardFork st else st) 0
  have hTR : (runBlock env cfg bw block st).1 =
      upgradeTrace cfg block.header ++
        ((List.range' 0 m).map Phase.applyTx ++ tail) := by
    rw [runBlock_eq]
    simp only []
    rw [htail, htr]
  have hrest : Phase.upgrade ∉ (List.range' 0 m).map Phase.applyTx ++ tail := by
    intro h
    rcases List.mem_append.mp h with h | h
    · exact absurd h (upgrade_notin_applyMap 0 m)
    · rcases hcases with ht | ht | ht <;> subst ht <;> simp_all
  have hdao : daoCond cfg block.header = true ↔
      cfg.daoForkSupport = true ∧ cfg.daoForkBlock = some block.header.number := by
    simp [daoCond]
  refine ⟨?_, ⟨_, hTR, hrest⟩, rfl⟩
  rw [hTR]
  constructor
  · intro h
    rcases List.mem_append.mp h with h | h
    · exact hdao.mp ((mem_upgradeTrace cfg block.header).mp h)
    · exact absurd h hrest
  · intro h
    exact List.mem_append.mpr
      (Or.inl ((mem_upgradeTrace cfg block.header).mpr (hdao.mpr h)))

/-- C1: when the transaction loop succeeds it produces exactly one
receipt per transaction of the block, in block order (receipt k is the
receipt the engine returned for transaction k at the cumulative state
after transactions 0..k-1); when the engine rejects transaction j
after accepting the ones before it, the replay aborts with an error
carrying that transaction's hash, no transaction after j is attempted,
only the j receipts of the accepted prefix exist, and neither the
finalization nor the commit phase is ever reached. -/
theorem runBlock_receipts_and_first_failure (env : Env St) (cfg : ChainConfig)
    (bw : ChangeSetWriter) (block : Block) (st st0 : St)
    (hst0 : st0 = if daoCond cfg block.header then env.applyDAOHardFork st else st) :
    (∀ st1, (applyTxs env cfg block.header st0 block.txs 0).2.2 = .ok st1 →
      (applyTxs env cfg block.header st0 block.txs 0).2.1.length = block.txs.length ∧
      ∀ k txk, block.txs[k]? = some txk →
        ∃ stk r st2,
          stateAfter env cfg block.header st0 (block.txs.take k) = some stk ∧
          env.applyTransaction cfg stk txk block.header = .ok (r, st2) ∧
          (applyTxs env cfg block.header st0 block.txs 0).2.1[k]? = some r) ∧
    (∀ j stj txj e,
      stateAfter env cfg block.header st0 (block.txs.take j) = some stj →
      block.txs[j]? = some txj →
      env.applyTransaction cfg stj txj block.header = .error e →
      (runBlock env cfg bw block st).2 = .error (.txFailed txj.hash e) ∧
      (applyTxs env cfg block.header st0 block.txs 0).1 =
        (List.range' 0 (j + 1)).map Phase.applyTx ∧
      (applyTxs env cfg block.header st0 block.txs 0).2.1.length = j ∧
      Phase.commit ∉ (runBlock env cfg bw block st).1 ∧
      Phase.finalize ∉ (runBlock env cfg bw block st).1) := by
  have hrb := runBlock_eq env cfg bw block st
  rw [← hst0] at hrb
  constructor
  · intro st1 h
    obtain ⟨hlen, _, hget⟩ := applyTxs_ok_parts env cfg block.header block.txs st0 0 st1 h
    exact ⟨hlen, hget⟩
  · intro j stj txj e hsa hj happ
    obtain ⟨h1, h2, h3⟩ :=
      applyTxs_fail env cfg block.header block.txs st0 0 j stj txj e hsa hj happ
    have hbody : runBlockBody env cfg bw block st0 =
        ((applyTxs env cfg block.header st0 block.txs 0).1,
          .error (.txFailed txj.hash e)) := by
      unfold runBlockBody
      rw [h3]
    have htrace : (runBlock env cfg bw block st).1 =
        upgradeTrace cfg block.header ++
          (List.range' 0 (j + 1)).map Phase.applyTx := by
      rw [hrb]
      simp only []
      rw [hbody]
      simp only []
      rw [h1]
    refine ⟨?_, h1, h2, ?_, ?_⟩
    · rw [hrb]
      simp only []
      rw [hbody]
    · rw [htrace]
      intro h
      rcases List.mem_append.mp h with h | h
      · exact absurd h (commit_notin_upgradeTrace cfg block.header)
      · exact absurd h (commit_notin_applyMap 0 (j + 1))
    · rw [htrace]
      intro h
      rcases List.mem_append.mp h with h | h
      · exact absurd h (finalize_notin_upgradeTrace cfg block.header)
      · exact absurd h (finalize_notin_applyMap 0 (j + 1))

/-- C2: in every successful replay the block-scoped write log is, per
store, deduplicated by key: each key appears at most once, at the
position of its first write (the log's key sequence is exactly the
first-write order of the flushed mutations), and it records the value
of the last write to that key; repeated writes updated the entry in
place without duplicating or reordering. -/
theorem runBlock_write_log_dedup (env : Env St) (cfg : ChainConfig) (block : Block)
    (st : St) (tr : List Phase) (w : ChangeSetWriter) (stF : St)
    (h : runBlock env cfg emptyWriter block st = (tr, .ok (w, stF))) :
    ∃ ops, w = runWriter ops ∧
      (w.accountChanges.map Change.key).Nodup ∧
      w.accountChanges.map Change.key = seenKeys (accountWritesOf ops) ∧
      (∀ k, lookupCS w.accountChanges k = lastWrite (accountWritesOf ops) k) ∧
      (w.storageChanges.map Change.key).Nodup ∧
      w.storageChanges.map Change.key = seenKeys (storageWritesOf ops) ∧
      (∀ k, lookupCS w.storageChanges k = lastWrite (storageWritesOf ops) k) := by
  have h2 : (runBlock env cfg emptyWriter block st).2 = .ok (w, stF) := by rw [h]
  rw [runBlock_eq] at h2
  simp only [] at h2
  obtain ⟨st1, st2, ops, _, _, _, hw, _, _⟩ :=
    runBlockBody_ok_inv env cfg emptyWriter block _ _ w stF (Prod.ext_iff.mpr ⟨rfl, h2⟩)
  have hww : w = runWriter ops := hw
  have hacc : w.accountChanges = foldPut [] (accountWritesOf ops) := by
    rw [hww, runWriter_eq]
  have hsto : w.storageChanges = foldPut [] (storageWritesOf ops) := by
    rw [hww, runWriter_eq]
  refine ⟨ops, hww, ?_, ?_, ?_, ?_, ?_, ?_⟩
  · rw [hacc, foldPut_keys]
    exact seenFold_nodup _ _ (by simp)
  · rw [hacc, foldPut_keys]
    simp [seenKeys]
  · intro k
    rw [hacc, lookupCS_foldPut_nil]
  · rw [hsto, foldPut_keys]
    exact seenFold_nodup _ _ (by simp)
  · rw [hsto, foldPut_keys]
    simp [seenKeys]
  · intro k
    rw [hsto, lookupCS_foldPut_nil]

/-! ## Hex encoding lemmas -/

theorem hexDigitChar_mem (m : Nat) (hm : m < 16) : isLowerHexDigit (hexDigitChar m) := by
  have hfin : ∀ f : Fin 16, isLowerHexDigit (hexDigitChar f.val) := by decide
  exact hfin ⟨m, hm⟩

theorem bytes2Hex_charset (bs : List Nat) :
    ∀ c ∈ bytes2Hex bs, isLowerHexDigit c := by
  intro c hc
  unfold bytes2Hex at hc
  obtain ⟨l, hl, hcl⟩ := List.mem_flatten.mp hc
  obtain ⟨b, _, rfl⟩ := List.mem_map.mp hl
  unfold byteToHex at hcl
  simp only [List.mem_cons, List.not_mem_nil, or_false] at hcl
  rcases hcl with h | h
  · exact h ▸ hexDigitChar_mem _ (Nat.mod_lt _ (by norm_num))
  · exact h ▸ hexDigitChar_mem _ (Nat.mod_lt _ (by norm_num))

/-! ## Retrace lemmas -/

/-- C3 amended: a height string that does not parse as a signed 64-bit
decimal integer makes Retrace return the parse error with the empty
response, without looking up any block; but every string that parses —
including a negative one — proceeds to the block lookup at the
wrapped-around height `uint64(bn)`, so a negative height string is not
rejected as invalid input. -/
theorem retrace_height_parse (env : Env St) (s chain : String) :
    (∀ e, atoi s = .error e → Retrace env s chain = (emptyResponse, some e)) ∧
    (∀ n, atoi s = .ok n →
      Retrace env s chain =
        match env.getBlockByNumber (goUint64 n) with
        | .error e => (emptyResponse, some e)
        | .ok block => retraceRun env (ReadChainConfig env chain) (goUint64 n) block) := by
  constructor
  · intro e h
    simp [Retrace, retraceWithCfg, h]
  · intro n h
    simp [Retrace, retraceWithCfg, h]

/-- C3 counterexample: the height string composed of a minus sign and
the digit five is not a valid non-negative integer, yet `strconv.Atoi`
accepts it and Retrace completes a full replay at the wrapped height
with no error at all — the block lookup is attempted, and no
invalid-input rejection happens. -/
theorem retrace_negative_height_not_rejected :
    atoi "-5" = .ok (-5) ∧
    Retrace sampleEnv "-5" "mainnet" = (emptyResponse, none) := by
  constructor
  · rfl
  · rfl

/-- C4: when the chain configuration cannot be resolved (unknown chain
name, missing store entry, or undecodable config data), ReadChainConfig
returns the zero-valued configuration with no error, and Retrace
proceeds with that degenerate configuration instead of failing. -/
theorem readChainConfig_zero_on_failure (env : Env St) (chain : String)
    (h : configResolutionFails env chain) :
    ReadChainConfig env chain = zeroChainConfig ∧
    ∀ bn, Retrace env bn chain = retraceWithCfg env zeroChainConfig bn := by
  have hz : ReadChainConfig env chain = zeroChainConfig := by
    rcases h with h | ⟨k, hk, hs⟩ | ⟨k, d, hk, hs, hd⟩
    · simp [ReadChainConfig, h]
    · simp [ReadChainConfig, hk, hs]
    · simp [ReadChainConfig, hk, hs, hd]
  refine ⟨hz, fun bn => ?_⟩
  unfold Retrace
  rw [hz]

/-- C6: whenever Retrace fails — in parsing, block lookup, or any
phase of the replay — it returns the error together with the
zero-valued response: no reads and no writes are reported, not even
entries accumulated before the failure point. -/
theorem retrace_error_empty (env : Env St) (s chain : String) (e : String)
    (h : (Retrace env s chain).2 = some e) :
    (Retrace env s chain).1 = emptyResponse ∧
    (Retrace env s chain).1.Account.Reads = [] ∧
    (Retrace env s chain).1.Account.Writes = [] ∧
    (Retrace env s chain).1.Storage.Reads = [] ∧
    (Retrace env s chain).1.Storage.Writes = [] := by
  have hmain : (Retrace env s chain).1 = emptyResponse := by
    rcases ha : atoi s with e0 | n
    · simp [Retrace, retraceWithCfg, ha]
    · rcases hb : env.getBlockByNumber (goUint64 n) with e0 | block
      · simp [Retrace, retraceWithCfg, ha, hb]
      · rcases hr : runBlock env (ReadChainConfig env chain) emptyWriter block
            (env.initialState (goUint64 n)) with ⟨tr, res⟩
        rcases res with e0 | p
        · simp [Retrace, retraceWithCfg, retraceRun, ha, hb, hr]
        · obtain ⟨w, stF⟩ := p
          have : (Retrace env s chain).2 = none := by
            simp [Retrace, retraceWithCfg, retraceRun, ha, hb, hr]
          rw [this] at h
          cases h
  exact ⟨hmain, by rw [hmain]; rfl, by rw [hmain]; rfl, by rw [hmain]; rfl,
    by rw [hmain]; rfl⟩

/-- C7: on success the response holds four string sequences — account
writes, account reads, storage writes, storage reads — each the
order-preserving image of the recorded key sequences under the
lowercase hexadecimal encoding with no prefix; every character of
every reported string is a lowercase hex digit. -/
theorem retrace_success_hex (env : Env St) (s chain : String) (n : Int) (block : Block)
    (tr : List Phase) (w : ChangeSetWriter) (stF : St)
    (ha : atoi s = .ok n)
    (hb : env.getBlockByNumber (goUint64 n) = .ok block)
    (hr : runBlock env (ReadChainConfig env chain) emptyWriter block
      (env.initialState (goUint64 n)) = (tr, .ok (w, stF))) :
    Retrace env s chain =
      (⟨⟨(env.getStorageReads stF).map (fun k => String.mk (bytes2Hex k)),
         w.storageChanges.map (fun c => String.mk (bytes2Hex c.key))⟩,
        ⟨(env.getAccountReads stF).map (fun k => String.mk (bytes2Hex k)),
         w.accountChanges.map (fun c => String.mk (bytes2Hex c.key))⟩⟩, none) ∧
    ∀ str : String,
      (str ∈ (Retrace env s chain).1.Account.Writes ∨
       str ∈ (Retrace env s chain).1.Account.Reads ∨
       str ∈ (Retrace env s chain).1.Storage.Writes ∨
       str ∈ (Retrace env s chain).1.Storage.Reads) →
      ∀ c ∈ str.data, isLowerHexDigit c := by
  have h1 : Retrace env s chain =
      (⟨⟨(env.getStorageReads stF).map (fun k => String.mk (bytes2Hex k)),
         w.storageChanges.map (fun c => String.mk (bytes2Hex c.key))⟩,
        ⟨(env.getAccountReads stF).map (fun k => String.mk (bytes2Hex k)),
         w.accountChanges.map (fun c => String.mk (bytes2Hex c.key))⟩⟩, none) := by
    simp [Retrace, retraceWithCfg, retraceRun, ha, hb, hr]
  refine ⟨h1, ?_⟩
  intro str hmem c hc
  rw [h1] at hmem
  simp only [List.mem_map] at hmem
  rcases hmem with ⟨x, _, rfl⟩ | ⟨x, _, rfl⟩ | ⟨x, _, rfl⟩ | ⟨x, _, rfl⟩ <;>
    exact bytes2Hex_charset _ c hc

/-- C10: change-set extraction failures can never surface: when the
replay itself succeeded, Retrace returns a nil error even if both
`GetAccountChanges` and `GetStorageChanges` report errors, because the
call sites discard those errors and the following error check re-tests
the already-nil error of the earlier `runBlock` call. -/
theorem retrace_discards_changeset_errors (env : Env St) (s chain : String) (n : Int)
    (block : Block) (tr : List Phase) (w : ChangeSetWriter) (stF : St) (ea es : String)
    (ha : atoi s = .ok n)
    (hb : env.getBlockByNumber (goUint64 n) = .ok block)
    (hr : runBlock env (ReadChainConfig env chain) emptyWriter block
      (env.initialState (goUint64 n)) = (tr, .ok (w, stF)))
    (hea : env.accountChangesErr w = some ea)
    (hes : env.storageChangesErr w = some es) :
    (Retrace env s chain).2 = none := by
  simp [Retrace, retraceWithCfg, retraceRun, ha, hb, hr]

/-- C8: the replay is a deterministic function of the store snapshot
and its inputs: two Retrace runs over environments that agree on every
external collaborator (the unmodified backing store, block locator,
engines, reader logs and accessor errors) return identical responses —
in particular byte-identical read logs and write logs. -/
theorem retrace_deterministic (env1 env2 : Env St)
    (h1 : env1.mainnetGenesisHash = env2.mainnetGenesisHash)
    (h2 : env1.ropstenGenesisHash = env2.ropstenGenesisHash)
    (h3 : env1.rinkebyGenesisHash = env2.rinkebyGenesisHash)
    (h4 : env1.goerliGenesisHash = env2.goerliGenesisHash)
    (h5 : env1.storeGet = env2.storeGet)
    (h6 : env1.decodeConfig = env2.decodeConfig)
    (h7 : env1.getBlockByNumber = env2.getBlockByNumber)
    (h8 : env1.initialState = env2.initialState)
    (h9 : env1.applyDAOHardFork = env2.applyDAOHardFork)
    (h10 : env1.applyTransaction = env2.applyTransaction)
    (h11 : env1.finalize = env2.finalize)
    (h12 : env1.commitOps = env2.commitOps)
    (h13 : env1.getAccountReads = env2.getAccountReads)
    (h14 : env1.getStorageReads = env2.getStorageReads)
    (h15 : env1.accountChangesErr = env2.accountChangesErr)
    (h16 : env1.storageChangesErr = env2.storageChangesErr) :
    ∀ s chain, Retrace env1 s chain = Retrace env2 s chain := by
  have he : env1 = env2 := by
    cases env1
    cases env2
    simp only [Env.mk.injEq]
    exact ⟨h1, h2, h3, h4, h5, h6, h7, h8, h9, h10, h11, h12, h13, h14, h15, h16⟩
  intro s chain
  rw [he]

/-! ## Witnesses: the claim theorems evaluated at concrete inputs -/

theorem runBlock_receipts_and_first_failure_witness :
    (runBlock engineEnv zeroChainConfig emptyWriter threeTxBlock 0).2 =
      .error (.txFailed [2] "bad tx") ∧
    Phase.commit ∉ (runBlock engineEnv zeroChainConfig emptyWriter threeTxBlock 0).1 := by
  have h := (runBlock_receipts_and_first_failure engineEnv zeroChainConfig emptyWriter
    threeTxBlock 0 0 (by decide)).2 1 1 ⟨[2]⟩ "bad tx" (by decide) (by decide) rfl
  exact ⟨h.1, h.2.2.2.1⟩

theorem runBlock_write_log_dedup_witness :
    ∃ ops, writerLog = runWriter ops ∧
      (writerLog.accountChanges.map Change.key).Nodup ∧
      writerLog.accountChanges.map Change.key = seenKeys (accountWritesOf ops) := by
  obtain ⟨ops, h1, h2, h3, _⟩ :=
    runBlock_write_log_dedup writerEnv zeroChainConfig blockAt7 ()
      [Phase.finalize, Phase.commit] writerLog () rfl
  exact ⟨ops, h1, h2, h3⟩

theorem retrace_height_parse_witness :
    Retrace sampleEnv "x" "mainnet" = (emptyResponse, some "invalid syntax") :=
  (retrace_height_parse sampleEnv "x" "mainnet").1 "invalid syntax" rfl

theorem readChainConfig_zero_on_failure_witness :
    ReadChainConfig sampleEnv "mainnet" = zeroChainConfig ∧
    Retrace sampleEnv "0" "mainnet" = retraceWithCfg sampleEnv zeroChainConfig "0" := by
  have h := readChainConfig_zero_on_failure sampleEnv "mainnet"
    (Or.inr (Or.inl ⟨[0], rfl, rfl⟩))
  exact ⟨h.1, h.2 "0"⟩

theorem runBlock_one_time_upgrade_witness :
    Phase.upgrade ∉ (runBlock sampleEnv zeroChainConfig emptyWriter blockAt7 ()).1 := by
  intro h
  have hiff :=
    (runBlock_one_time_upgrade sampleEnv zeroChainConfig emptyWriter blockAt7 ()).1.mp h
  simpa [zeroChainConfig] using hiff.1

theorem retrace_error_empty_witness :
    (Retrace sampleEnv "x" "mainnet").1 = emptyResponse :=
  (retrace_error_empty sampleEnv "x" "mainnet" "invalid syntax" rfl).1

theorem retrace_success_hex_witness :
    Retrace writerEnv "7" "mainnet" =
      (⟨⟨[String.mk (bytes2Hex [254])], [String.mk (bytes2Hex [205, 15])]⟩,
        ⟨[String.mk (bytes2Hex [18, 52])], [String.mk (bytes2Hex [171])]⟩⟩, none) := by
  have h := (retrace_success_hex writerEnv "7" "mainnet" 7 blockAt7
    [Phase.finalize, Phase.commit] writerLog () rfl rfl rfl).1
  rw [h]
  rfl

theorem retrace_discards_changeset_errors_witness :
    (Retrace writerEnv "7" "mainnet").2 = none :=
  retrace_discards_changeset_errors writerEnv "7" "mainnet" 7 blockAt7
    [Phase.finalize, Phase.commit] writerLog ()
    "account changeset error" "storage changeset error"
    rfl rfl rfl rfl rfl

theorem retrace_deterministic_witness :
    Retrace sampleEnv "0" "mainnet" = Retrace sampleEnv "0" "mainnet" :=
  retrace_deterministic sampleEnv sampleEnv rfl rfl rfl rfl rfl rfl rfl rfl
    rfl rfl rfl rfl rfl rfl rfl rfl "0" "mainnet"

theorem runBlock_phase_order_witness :
    Phase.finalize ∈ (runBlock sampleEnv zeroChainConfig emptyWriter blockAt7 ()).1 :=
  (runBlock_phase_order sampleEnv zeroChainConfig emptyWriter blockAt7 ()).2.2.2 rfl

end Retrace
